import Mathlib

/-!
Verification of the ragxjs RAG pipeline core against its specification.

The TypeScript sources are shallowly embedded: JavaScript strings are
modelled as Lean `String`/`List Char`, JavaScript numbers that hold
integer quantities as `Nat`/`Int`, relevance scores (floats) as `ℚ`,
`async` results as plain values, thrown exceptions as `Except.error`,
and the external capabilities (generation, embedding, search, rerank,
tools) as oracle function parameters.  Wall-clock fields (`createdAt`,
message timestamps) are omitted: no claim mentions them.
-/

/-! ### JavaScript string primitives

The core string operations of the source (`split(/\s+/)`, `trim`,
`toLowerCase`, `includes`, `join`, `slice`) are modelled on `List Char`
so that every definition reduces inside `decide`/`rfl`.  ASCII inputs
are assumed: JavaScript case mapping and `\s` agree with
`Char.toLower`/`Char.isWhitespace` on ASCII.
-/

/-- Maximal runs of non-whitespace characters, in order (helper for
`jsSplitWs`). -/
def wsRuns : List Char → List Char → List (List Char)
  | [], cur => if cur = [] then [] else [cur.reverse]
  | c :: cs, cur =>
    if c.isWhitespace then
      if cur = [] then wsRuns cs [] else cur.reverse :: wsRuns cs []
    else wsRuns cs (c :: cur)

/-- JavaScript `s.split(/\s+/)`: splits on maximal whitespace runs; an
empty string yields `[""]`, and leading/trailing whitespace contributes
one empty field on that side. -/
def jsSplitWs (s : List Char) : List (List Char) :=
  if s = [] then [[]]
  else
    (if (s.head?.map Char.isWhitespace).getD false then [[]] else [])
      ++ wsRuns s []
      ++ (if (s.getLast?.map Char.isWhitespace).getD false then [[]] else [])

/-- JavaScript `String.prototype.trim`. -/
def jsTrim (s : List Char) : List Char :=
  ((s.dropWhile Char.isWhitespace).reverse.dropWhile Char.isWhitespace).reverse

/-- JavaScript `String.prototype.toLowerCase` (ASCII). -/
def jsLower (s : List Char) : List Char := s.map Char.toLower

/-- Is `needle` a contiguous substring of `hay`?  JavaScript
`hay.includes(needle)`. -/
def jsIncludes (needle : List Char) : List Char → Bool
  | [] => decide (needle = [])
  | c :: cs => List.isPrefixOf needle (c :: cs) || jsIncludes needle cs

/-- `parts.join(sep)`. -/
def jsJoin (sep : List Char) : List (List Char) → List Char
  | [] => []
  | [p] => p
  | p :: ps => p ++ sep ++ jsJoin sep ps

/-- JavaScript `Array.prototype.slice(s, e)` with possibly negative
`Int` endpoints. -/
def jsSlice {α : Type} (l : List α) (s e : Int) : List α :=
  let len : Int := l.length
  let s' : Nat := (if s < 0 then max (len + s) 0 else min s len).toNat
  let e' : Nat := (if e < 0 then max (len + e) 0 else min e len).toNat
  (l.drop s').take (e' - s')

/-- JavaScript falsy-default on a string option: `x || d` where a
missing or empty string falls back to `d`. -/
def jsStrOr (x : Option String) (d : String) : String :=
  match x with
  | none => d
  | some s => if s = "" then d else s

/-! ### Data model (`interfaces.ts`)

`DocumentChunk.metadata` is an open key/value bag in the source; the
pipeline reads exactly three keys (`source`, `parentId`,
`chunkStrategy`), which are modelled as explicit optional fields.
-/

/-- `DocumentChunk` of `interfaces.ts` (without `createdAt`). -/
structure DocumentChunk where
  id : String
  content : String
  documentId : String
  position : Nat
  tokenCount : Nat
  checksum : String
  metaSource : Option String
  metaParentId : Option String
  metaStrategy : Option String
deriving DecidableEq, Repr

/-- `Document` of `interfaces.ts`; its metadata bag is reduced to the
one key the pipeline reads back (`parentId`). -/
structure Document where
  id : String
  content : String
  source : String
  metaParentId : Option String
deriving DecidableEq, Repr

/-- `RetrievedDocument` of `interfaces.ts`; the float score is
modelled as `ℚ`. -/
structure RetrievedDocument where
  chunk : DocumentChunk
  score : ℚ
  source : String
deriving DecidableEq, Repr

/-- One entry of `history` as the actual `ContextBuilder.build`
declares it (`{role: "user" | "assistant", content}`). -/
structure HistoryMsg where
  isUser : Bool
  content : String
deriving DecidableEq, Repr

/-- `RAGContext` of `interfaces.ts`. -/
structure RAGContext where
  query : String
  documents : List RetrievedDocument
  history : Option (List HistoryMsg)
  systemPrompt : String
deriving DecidableEq, Repr

/-! ### `context-builder.ts` -/

/-- The `defaultSystemPrompt` literal of `ContextBuilder` (content is
irrelevant to every claim; abbreviated to its first line). -/
def defaultSystemPromptText : String :=
  "You are a helpful AI assistant that answers questions based on the provided context."

/-- `ContextBuilder.build` as implemented: it takes no token budget at
all (its third parameter is `history`) and copies the document list
into the context unchanged. -/
def ContextBuilder.build (systemPrompt : Option String) (query : String)
    (documents : List RetrievedDocument) (history : Option (List HistoryMsg)) :
    RAGContext :=
  { query := query
    documents := documents
    history := history
    systemPrompt := jsStrOr systemPrompt defaultSystemPromptText }

/-- The lower-cased chunk contents joined by `" "`:
`context.documents.map(d => d.chunk.content.toLowerCase()).join(" ")`. -/
def contextTextOf (ctx : RAGContext) : List Char :=
  jsJoin [' '] (ctx.documents.map (fun d => jsLower d.chunk.content.data))

/-- `response.toLowerCase().split(/\s+/)`. -/
def answerWords (response : String) : List (List Char) :=
  jsSplitWs (jsLower response.data)

/-- The words counted as grounded by `verifyGrounding`: length > 3 and
occurring as a substring of the joined context text. -/
def groundedWords (response : String) (ctx : RAGContext) : List (List Char) :=
  (answerWords response).filter
    (fun w => decide (3 < w.length) && jsIncludes w (contextTextOf ctx))

/-- `ContextBuilder.verifyGrounding`.  The float comparison
`matching.length / responseWords.length >= 0.3` is modelled as the
exact rational inequality `10 * matching >= 3 * total`; for the word
counts reachable here the IEEE-double comparison agrees with the
rational one. -/
def ContextBuilder.verifyGrounding (response : String) (ctx : RAGContext) : Bool :=
  if jsTrim response.data = "INSUFFICIENT_CONTEXT".data then true
  else if ctx.documents.length = 0 then false
  else 10 * (groundedWords response ctx).length ≥ 3 * (answerWords response).length

/-! ### Claims C1 and C2 (`ContextBuilder`)

The `IContextBuilder` interface declares
`build(query, documents, maxTokens, history)` and `buildMessages`, the
engine calls both, and the verification script shipped in
`context-builder.ts` expects budget-bounded packing; the implemented
`build`, however, has no `maxTokens` parameter (the engine's budget
argument lands in the `history` slot) and performs no admission
control.
-/

/-- The two documents of the repository's own ContextBuilder
verification script: token counts 10 and 50, scores 0.9 and 0.8. -/
def verifyScriptDocs : List RetrievedDocument :=
  [⟨⟨"1", "This is a short document content.", "doc1", 0, 10, "abc",
      none, none, none⟩, (9 : ℚ) / 10, "test"⟩,
   ⟨⟨"2", "This is a much longer document content.", "doc2", 0, 50, "def",
      none, none, none⟩, (8 : ℚ) / 10, "test"⟩]

/-- C1: the implemented `ContextBuilder.build` performs no token-budget
admission at all — it returns every input document for every input, so
the admitted token cost (here 60) exceeds any budget smaller than the
total and admission never stops at a non-fitting document.  The claim's
budget invariant fails on the code. -/
theorem ragx_C1_build_ignores_budget :
    (∀ sp q docs h, (ContextBuilder.build sp q docs h).documents = docs)
    ∧ ((ContextBuilder.build none "test query" verifyScriptDocs
          none).documents.map (fun d => d.chunk.tokenCount)).sum = 60 := by
  constructor
  · intro sp q docs h
    rfl
  · decide

/-- A context with zero admitted documents. -/
def emptyGroundingCtx : RAGContext := ⟨"q", [], none, "sp"⟩

/-- A context with one admitted document whose chunk content is
`"aaaa"`. -/
def sampleGroundingCtx : RAGContext :=
  ⟨"q", [⟨⟨"1", "aaaa", "d", 0, 1, "h", some "s", none, none⟩, 1, "s"⟩],
    none, "sp"⟩

/-- C2 fails as stated on two points.  First, the code compares the
TRIMMED answer against the sentinel, so the non-sentinel answer
`"INSUFFICIENT_CONTEXT "` (trailing space) is declared grounded even
against a context with zero admitted documents, where the claim
requires `false`.  Second, the 0.30 fraction is taken over ALL answer
words, not over the words of length > 3: for answer
`"aaaa zz zz zz zz"` every length->3 word (exactly one, `"aaaa"`)
occurs in the context, so the claim's fraction is 1 ≥ 0.30, yet the
code computes 1/5 < 0.30 and returns `false`. -/
theorem ragx_C2_grounding_counterexample :
    (ContextBuilder.verifyGrounding "INSUFFICIENT_CONTEXT " emptyGroundingCtx
        = true
      ∧ "INSUFFICIENT_CONTEXT " ≠ "INSUFFICIENT_CONTEXT"
      ∧ emptyGroundingCtx.documents.length = 0)
    ∧ (ContextBuilder.verifyGrounding "aaaa zz zz zz zz" sampleGroundingCtx
        = false
      ∧ ((answerWords "aaaa zz zz zz zz").filter
          (fun w => decide (3 < w.length))).length = 1
      ∧ (groundedWords "aaaa zz zz zz zz" sampleGroundingCtx).length = 1
      ∧ (answerWords "aaaa zz zz zz zz").length = 5) := by
  refine ⟨⟨by decide, by decide, by decide⟩, by decide, by decide, by decide, by decide⟩

/-- C2 (amended): `verifyGrounding` returns `true` whenever the TRIMMED
answer equals the sentinel `INSUFFICIENT_CONTEXT`; it returns `false`
whenever the context has zero admitted documents and the trimmed answer
is not the sentinel; otherwise it returns `true` exactly when the
number of answer words that both have length > 3 and occur as a
substring of the lower-cased space-joined chunk contents is at least
0.30 of the TOTAL number of answer words. -/
theorem ragx_C2_grounding_amended (response : String) (ctx : RAGContext) :
    (jsTrim response.data = "INSUFFICIENT_CONTEXT".data →
      ContextBuilder.verifyGrounding response ctx = true)
    ∧ (ctx.documents = [] → jsTrim response.data ≠ "INSUFFICIENT_CONTEXT".data →
      ContextBuilder.verifyGrounding response ctx = false)
    ∧ (ctx.documents ≠ [] → jsTrim response.data ≠ "INSUFFICIENT_CONTEXT".data →
      (ContextBuilder.verifyGrounding response ctx = true ↔
        3 * (answerWords response).length ≤
          10 * (groundedWords response ctx).length)) := by
  unfold ContextBuilder.verifyGrounding
  refine ⟨fun h => by simp [h], fun hd hs => ?_, fun hd hs => ?_⟩
  · simp [hs, hd]
  · have hlen : ctx.documents.length ≠ 0 := by
      simpa using fun h => hd (List.length_eq_zero.mp h)
    simp [hs, hlen, ge_iff_le]

/-- Witness for C2 (amended): against the one-document context whose
chunk content is `"aaaa"`, the answer `"aaaa zz"` (1 of 2 words grounded)
is declared grounded. -/
theorem ragx_C2_grounding_amended_witness :
    ContextBuilder.verifyGrounding "aaaa zz" sampleGroundingCtx = true :=
  ((ragx_C2_grounding_amended "aaaa zz" sampleGroundingCtx).2.2
    (by decide) (by decide)).mpr (by decide)

/-! ### `document-processor.ts` — fixed-size chunking

`fixedSizeChunking` slides a word window of
`Math.floor(maxTokens * 0.75)` words, advancing by
`endIdx - Math.floor(overlap * 0.75)`; its only loop guard is
`startIdx >= words.length || endIdx === words.length`.  The `while`
loop is embedded with explicit fuel: `none` means the fuel was
exhausted before the loop terminated.  The SHA-256 `generateChecksum`
is an external hash, passed as an oracle parameter.
-/

/-- `countTokens`: `Math.ceil(text.length / 4)`. -/
def countTokens (s : List Char) : Nat := (s.length + 3) / 4

/-- `Math.floor(n * 0.75)` for a non-negative integer `n` (`0.75` is a
dyadic float, so the product is exact). -/
def timesThreeQuarters (n : Nat) : Nat := 3 * n / 4

/-- The bound actually used by the emission guard
`tokenCount >= (this.options.minTokens || 100)` (JavaScript falsiness:
a configured 0 falls back to 100). -/
def effectiveMinTokens (minTokens : Nat) : Nat :=
  if minTokens = 0 then 100 else minTokens

/-- `ChunkingOptions` with all fields resolved (the constructor merges
defaults `{500, 50, 100}`). -/
structure ChunkingOptions where
  maxTokens : Nat
  overlap : Nat
  minTokens : Nat
deriving DecidableEq, Repr

/-- The chunk record pushed by `fixedSizeChunking`: id
`{documentId}-chunk-{position}`, metadata spread from the document plus
`source` and `chunkStrategy: "fixed"`. -/
def mkFixedChunk (checksum : List Char → String) (doc : Document)
    (position : Nat) (content : List Char) : DocumentChunk :=
  ⟨doc.id ++ "-chunk-" ++ toString position, String.mk content, doc.id,
    position, countTokens content, checksum content, some doc.source,
    doc.metaParentId, some "fixed"⟩

/-- One iteration of the `while` body of `fixedSizeChunking`: returns
the new cursor, the new position, the new chunk list, and whether the
`break` guard fires. -/
def fixedBody (opts : ChunkingOptions) (checksum : List Char → String)
    (doc : Document) (words : List (List Char)) (startIdx : Int)
    (position : Nat) (acc : List DocumentChunk) :
    Int × Nat × List DocumentChunk × Bool :=
  let endIdx : Int :=
    min (startIdx + (timesThreeQuarters opts.maxTokens : Int))
      (words.length : Int)
  let content := jsJoin [' '] (jsSlice words startIdx endIdx)
  let emit : Bool := effectiveMinTokens opts.minTokens ≤ countTokens content
  let acc' :=
    if emit then acc ++ [mkFixedChunk checksum doc position content] else acc
  let position' := if emit then position + 1 else position
  let startIdx' := endIdx - (timesThreeQuarters opts.overlap : Int)
  let stop : Bool :=
    startIdx' ≥ (words.length : Int) ∨ endIdx = (words.length : Int)
  (startIdx', position', acc', stop)

/-- The `while` loop of `fixedSizeChunking` with explicit fuel. -/
def fixedLoop (opts : ChunkingOptions) (checksum : List Char → String)
    (doc : Document) (words : List (List Char)) :
    Nat → Int → Nat → List DocumentChunk → Option (List DocumentChunk)
  | 0, _, _, _ => none
  | fuel + 1, startIdx, position, acc =>
    if startIdx < (words.length : Int) then
      match fixedBody opts checksum doc words startIdx position acc with
      | (startIdx', position', acc', stop) =>
        if stop then some acc'
        else fixedLoop opts checksum doc words fuel startIdx' position' acc'
    else some acc

/-- `DocumentProcessor.fixedSizeChunking` (fuel-indexed). -/
def DocumentProcessor.fixedSizeChunking (opts : ChunkingOptions)
    (checksum : List Char → String) (doc : Document) (fuel : Nat) :
    Option (List DocumentChunk) :=
  fixedLoop opts checksum doc (jsSplitWs doc.content.data) fuel 0 0 []

/-! ### Claims C4 and C5 (fixed-size chunking) -/

/-- A ten-word document driving the chunking loop. -/
def loopDoc : Document := ⟨"doc", "a a a a a a a a a a", "src", none⟩

/-- With `maxTokens = 4` and `overlap = 4` the window is 3 words and the
overlap rewind is 3 words, so one loop iteration leaves the cursor
unchanged and emits one more chunk. -/
theorem fixedLoop_step_loopDoc (n position : Nat) (acc : List DocumentChunk) :
    fixedLoop ⟨4, 4, 1⟩ (fun _ => "h") loopDoc (jsSplitWs loopDoc.content.data)
        (n + 1) 0 position acc =
      fixedLoop ⟨4, 4, 1⟩ (fun _ => "h") loopDoc (jsSplitWs loopDoc.content.data)
        n 0 (position + 1)
        (acc ++ [mkFixedChunk (fun _ => "h") loopDoc position "a a a".data]) :=
  rfl

/-- C4: the claimed termination guard does not exist.  With
`maxTokens = 4, overlap = 4` (window 3 words, rewind 3 words) on a
ten-word document, the loop body leaves the cursor at 0 and the `break`
guard (`startIdx >= words.length || endIdx === words.length`) never
fires, so `fixedSizeChunking` runs forever: for every fuel the loop is
still running.  The advance does not move the cursor strictly forward
(conjunct 2) and the loop does not stop there (conjunct 3), contrary
to the claim. -/
theorem ragx_C4_fixed_chunking_diverges :
    (∀ fuel, DocumentProcessor.fixedSizeChunking ⟨4, 4, 1⟩ (fun _ => "h")
      loopDoc fuel = none)
    ∧ (fixedBody ⟨4, 4, 1⟩ (fun _ => "h") loopDoc
        (jsSplitWs loopDoc.content.data) 0 0 []).1 = 0
    ∧ (fixedBody ⟨4, 4, 1⟩ (fun _ => "h") loopDoc
        (jsSplitWs loopDoc.content.data) 0 0 []).2.2.2 = false := by
  refine ⟨fun fuel => ?_, by decide, by decide⟩
  suffices h : ∀ n position acc,
      fixedLoop ⟨4, 4, 1⟩ (fun _ => "h") loopDoc
        (jsSplitWs loopDoc.content.data) n 0 position acc = none by
    exact h fuel 0 []
  intro n
  induction n with
  | zero => intro position acc; rfl
  | succ m ih =>
    intro position acc
    rw [fixedLoop_step_loopDoc]
    exact ih _ _

/-- Every chunk list produced by a terminating run of the fixed-size
loop, starting from an accumulator of sufficiently large chunks,
contains only chunks of at least the effective minimum token count. -/
theorem fixedLoop_min_tokens (opts : ChunkingOptions)
    (chk : List Char → String) (doc : Document) (words : List (List Char)) :
    ∀ fuel (startIdx : Int) (position : Nat) acc chunks,
      (∀ c ∈ acc, effectiveMinTokens opts.minTokens ≤ c.tokenCount) →
      fixedLoop opts chk doc words fuel startIdx position acc = some chunks →
      ∀ c ∈ chunks, effectiveMinTokens opts.minTokens ≤ c.tokenCount := by
  intro fuel
  induction fuel with
  | zero =>
    intro s p a ch hacc h
    simp [fixedLoop] at h
  | succ n ih =>
    intro s p a ch hacc h
    rw [fixedLoop] at h
    by_cases hs : s < (words.length : Int)
    · rw [if_pos hs] at h
      rcases ht : fixedBody opts chk doc words s p a with ⟨s', p', a', stop⟩
      rw [ht] at h
      have h2 : (if stop = true then some a'
          else fixedLoop opts chk doc words n s' p' a') = some ch := h
      have hbody : (fixedBody opts chk doc words s p a).2.2.1 = a' := by
        rw [ht]
      have ha' : ∀ c ∈ a', effectiveMinTokens opts.minTokens ≤ c.tokenCount := by
        have hsplit : a' = a ∨ ∃ d, a' = a ++ [d] ∧
            effectiveMinTokens opts.minTokens ≤ d.tokenCount := by
          by_cases hemit : effectiveMinTokens opts.minTokens ≤ countTokens
              (jsJoin [' '] (jsSlice words s
                (min (s + (timesThreeQuarters opts.maxTokens : Int))
                  (words.length : Int))))
          · right
            refine ⟨mkFixedChunk chk doc p (jsJoin [' '] (jsSlice words s
              (min (s + (timesThreeQuarters opts.maxTokens : Int))
                (words.length : Int)))), ?_, hemit⟩
            rw [← hbody]
            simp [fixedBody, hemit]
          · left
            rw [← hbody]
            simp [fixedBody, hemit]
        rcases hsplit with h1 | ⟨d, h2, h3⟩
        · rw [h1]; exact hacc
        · rw [h2]
          intro c hc
          rcases List.mem_append.mp hc with hc | hc
          · exact hacc c hc
          · rw [List.mem_singleton.mp hc]; exact h3
      cases stop with
      | true =>
        rw [if_pos rfl] at h2
        rw [← Option.some_inj.mp h2]
        exact ha'
      | false =>
        rw [if_neg (by simp)] at h2
        exact ih s' p' a' ch ha' h2
    · rw [if_neg hs] at h
      rw [← Option.some_inj.mp h]
      exact hacc

/-- A seven-word document whose final slice is a single undersized
word. -/
def shortTailDoc : Document := ⟨"doc", "a a a a a a a", "src", none⟩

/-- C5 fails as stated: with `maxTokens = 8` (window 6 words),
`overlap = 0`, `minTokens = 2`, the seven-word document produces a
first window of 6 words (3 tokens, emitted) and a final slice `"a"`
(1 token < `minTokens`), which the code DISCARDS — the loop breaks via
`startIdx >= words.length` without emitting it, so the claimed
final-slice exception does not exist. -/
theorem ragx_C5_final_slice_counterexample :
    (DocumentProcessor.fixedSizeChunking ⟨8, 0, 2⟩ (fun _ => "h")
        shortTailDoc 10).map (List.map (fun c => c.content))
      = some ["a a a a a a"]
    ∧ jsSplitWs shortTailDoc.content.data = List.replicate 7 ['a']
    ∧ countTokens ['a'] < effectiveMinTokens 2 := by
  refine ⟨by decide, by decide, by decide⟩

/-- C5 (amended): every produced window whose token count is below the
effective minimum is discarded, INCLUDING a final slice; consequently
every chunk emitted by a terminating run of `fixedSizeChunking` has
`tokenCount` at least the effective minimum — with no exception for
the final chunk. -/
theorem ragx_C5_min_tokens_amended (opts : ChunkingOptions)
    (chk : List Char → String) (doc : Document) (fuel : Nat)
    (chunks : List DocumentChunk)
    (h : DocumentProcessor.fixedSizeChunking opts chk doc fuel = some chunks) :
    ∀ c ∈ chunks, effectiveMinTokens opts.minTokens ≤ c.tokenCount :=
  fixedLoop_min_tokens opts chk doc (jsSplitWs doc.content.data) fuel 0 0 []
    chunks (by intro c hc; cases hc) h

/-- Witness for C5 (amended): the one chunk emitted for the seven-word
document has 3 ≥ 2 tokens. -/
theorem ragx_C5_min_tokens_amended_witness :
    effectiveMinTokens 2 ≤
      (mkFixedChunk (fun _ => "h") shortTailDoc 0 "a a a a a a".data).tokenCount :=
  ragx_C5_min_tokens_amended ⟨8, 0, 2⟩ (fun _ => "h") shortTailDoc 10
    [mkFixedChunk (fun _ => "h") shortTailDoc 0 "a a a a a a".data]
    (by decide) _ (by decide)

/-! ### `tool-registry.ts` (claim C9)

The registry's `Map<string, ITool>` is modelled by its lookup function
(`getTool`).  A tool's `execute` is an oracle returning
`Except String α`: `.error msg` models a thrown value whose extracted
message (`error instanceof Error ? error.message : String(error)`) is
`msg`.  `executeTool` itself throws (`Except.error`) for an unknown
name and otherwise never throws.
-/

/-- `ITool` of `interfaces.ts`, reduced to the fields `executeTool`
reads. -/
structure Tool (α : Type) where
  name : String
  execute : String → Except String α

/-- The value `executeTool` resolves with: either the tool's own result
or the caught-failure string. -/
inductive ToolResult (α : Type) where
  | value (v : α)
  | caughtError (s : String)
deriving DecidableEq, Repr

/-- `ToolRegistry.executeTool`. -/
def ToolRegistry.executeTool {α : Type} (getTool : String → Option (Tool α))
    (name : String) (args : String) : Except String (ToolResult α) :=
  match getTool name with
  | none => .error ("Tool not found: " ++ name)
  | some t =>
    match t.execute args with
    | .ok v => .ok (.value v)
    | .error msg =>
      .ok (.caughtError ("Error executing tool " ++ name ++ ": " ++ msg))

/-- C9: a registered tool whose execution throws does not propagate the
exception — `executeTool` resolves with the string
`Error executing tool {name}: {message}` — while an unknown tool name
throws (`Tool not found: {name}`); a successful tool result is passed
through. -/
theorem ragx_C9_execute_tool {α : Type} (getTool : String → Option (Tool α))
    (name args : String) :
    (getTool name = none →
      ToolRegistry.executeTool getTool name args =
        .error ("Tool not found: " ++ name))
    ∧ (∀ t msg, getTool name = some t → t.execute args = .error msg →
      ToolRegistry.executeTool getTool name args =
        .ok (.caughtError ("Error executing tool " ++ name ++ ": " ++ msg)))
    ∧ (∀ t v, getTool name = some t → t.execute args = .ok v →
      ToolRegistry.executeTool getTool name args = .ok (.value v)) := by
  refine ⟨fun h => ?_, fun t msg ht he => ?_, fun t v ht he => ?_⟩
  · simp [ToolRegistry.executeTool, h]
  · simp [ToolRegistry.executeTool, ht, he]
  · simp [ToolRegistry.executeTool, ht, he]

/-- A registry holding exactly one tool, `boom`, which always throws
`kaput`. -/
def boomRegistry : String → Option (Tool String) := fun n =>
  if n = "boom" then some ⟨"boom", fun _ => .error "kaput"⟩ else none

/-- Witness for C9: executing `boom` resolves with the caught-error
string; executing the unregistered `nope` throws. -/
theorem ragx_C9_execute_tool_witness :
    ToolRegistry.executeTool boomRegistry "boom" "{}" =
      .ok (.caughtError "Error executing tool boom: kaput")
    ∧ ToolRegistry.executeTool boomRegistry "nope" "{}" =
      .error "Tool not found: nope" :=
  ⟨((ragx_C9_execute_tool boomRegistry "boom" "{}").2.1
      ⟨"boom", fun _ => .error "kaput"⟩ "kaput" rfl rfl).trans rfl,
   (ragx_C9_execute_tool boomRegistry "nope" "{}").1 rfl⟩

/-! ### `retriever.ts` (claim C8)

The engine's `Retriever` (the variant with parent-document support).
External capabilities are oracles: `embed` returns the first element of
`embeddingProvider.embed([query])` (`none` models `undefined`),
`search` is the vector-store backend (arguments: optional query vector,
`topK`, optional text query), `rerank` the optional reranker, and
`store` the optional parent-document store.  JavaScript's stable
`Array.prototype.sort` with comparator `(a, b) => b.score - a.score`
is modelled by the stable `List.insertionSort` under `scoreDesc`.
-/

/-- A `{chunk, score}` search-backend result. -/
structure SearchResult where
  chunk : DocumentChunk
  score : ℚ
deriving DecidableEq, Repr

/-- An `{index, score}` reranker result; `index` points into the
candidate chunk array. -/
structure RerankEntry where
  index : Nat
  score : ℚ
deriving DecidableEq, Repr

/-- The retrieval mode from `RetrievalConfig.strategy`
(`config?.strategy || "vector"` resolved). -/
inductive RetrievalStrategy where
  | vector
  | keyword
  | hybrid
deriving DecidableEq, Repr

/-- `chunk.metadata.source as string || "unknown"`. -/
def jsSourceLabel (c : DocumentChunk) : String := jsStrOr c.metaSource "unknown"

/-- Descending-score order on retrieved documents (the comparator
`(a, b) => b.score - a.score`). -/
def scoreDesc (a b : RetrievedDocument) : Prop := b.score ≤ a.score

instance : DecidableRel scoreDesc :=
  fun a b => inferInstanceAs (Decidable (b.score ≤ a.score))

instance : IsTotal RetrievedDocument scoreDesc :=
  ⟨fun a b => le_total b.score a.score⟩

instance : IsTrans RetrievedDocument scoreDesc :=
  ⟨fun _ _ _ h1 h2 => le_trans h2 h1⟩

/-- The query embedding `retrieve` computes: only vector and hybrid
modes call the embedding capability. -/
def retrieveEmbedding {V : Type} (strategy : RetrievalStrategy)
    (embed : String → Option V) (query : String) : Option V :=
  match strategy with
  | .vector | .hybrid => embed query
  | .keyword => none

/-- The raw text query passed to the search backend: only keyword and
hybrid modes pass it. -/
def retrieveTextQuery (strategy : RetrievalStrategy) (query : String) :
    Option String :=
  match strategy with
  | .keyword | .hybrid => some query
  | .vector => none

/-- `rerankedResults.map(r => ({chunk: chunks[r.index]!, ...}))`: `none`
models the `TypeError` a reranker index outside the candidate array
would raise. -/
def mapRerank (chunks : List DocumentChunk) :
    List RerankEntry → Option (List RetrievedDocument)
  | [] => some []
  | e :: es =>
    match chunks.get? e.index with
    | none => none
    | some c =>
      (mapRerank chunks es).map
        (fun rest => ⟨c, e.score, jsSourceLabel c⟩ :: rest)

/-- The parent-document substitution loop: deduplicate by parent id
(first occurrence wins, later chunks of a seen parent are dropped) and
substitute the parent's full content when the store has it. -/
def parentResolve (store : String → Option Document) :
    List RetrievedDocument → List String → List RetrievedDocument
  | [], _ => []
  | r :: rs, seen =>
    let parentId := jsStrOr r.chunk.metaParentId r.chunk.documentId
    if parentId ∈ seen then parentResolve store rs seen
    else
      match store parentId with
      | some parentDoc =>
        { r with chunk := { r.chunk with content := parentDoc.content } } ::
          parentResolve store rs (parentId :: seen)
      | none => r :: parentResolve store rs (parentId :: seen)

/-- The no-reranker path of `retrieve`: filter by threshold, sort by
score descending, take `topK`, then optional parent resolution. -/
def Retriever.standardPath (store : Option (String → Option Document))
    (results : List SearchResult) (topK : Nat) (scoreThreshold : ℚ) :
    List RetrievedDocument :=
  let retrieved :=
    ((results.filter (fun r => scoreThreshold ≤ r.score)).map
      (fun r =>
        (⟨r.chunk, r.score, jsSourceLabel r.chunk⟩ : RetrievedDocument))
      |> List.insertionSort scoreDesc).take topK
  match store with
  | some st =>
    if retrieved.length ≠ 0 then parentResolve st retrieved [] else retrieved
  | none => retrieved

/-- `Retriever.retrieve`. -/
def Retriever.retrieve {V : Type} (strategy : RetrievalStrategy)
    (embed : String → Option V)
    (search : Option V → Nat → Option String → List SearchResult)
    (rerank : Option (String → List DocumentChunk → Nat → List RerankEntry))
    (store : Option (String → Option Document)) (query : String) (topK : Nat)
    (scoreThreshold : ℚ) : Except String (List RetrievedDocument) :=
  let queryEmbedding := retrieveEmbedding strategy embed query
  if strategy = .vector ∧ queryEmbedding.isNone then
    .error "Failed to generate query embedding for vector search"
  else
    let initialK := if rerank.isSome then max (topK * 4) 20 else topK
    let results := search queryEmbedding initialK (retrieveTextQuery strategy query)
    match rerank with
    | some rr =>
      if results.length ≠ 0 then
        let chunks := results.map (fun r => r.chunk)
        match mapRerank chunks (rr query chunks topK) with
        | none => .error "TypeError: reranker index outside the candidate pool"
        | some mapped =>
          .ok (mapped.filter (fun r => scoreThreshold ≤ r.score))
      else .ok (Retriever.standardPath store results topK scoreThreshold)
    | none => .ok (Retriever.standardPath store results topK scoreThreshold)

/-- When every reranker index is inside the candidate array, the
mapping-back step succeeds and equals the order-preserving
`filterMap`. -/
theorem mapRerank_eq_filterMap (chunks : List DocumentChunk) :
    ∀ es : List RerankEntry, (∀ e ∈ es, e.index < chunks.length) →
      mapRerank chunks es = some (es.filterMap
        (fun e => (chunks.get? e.index).map
          (fun c => (⟨c, e.score, jsSourceLabel c⟩ : RetrievedDocument)))) := by
  intro es
  induction es with
  | nil => intro _; rfl
  | cons e es ih =>
    intro h
    have he : e.index < chunks.length := h e (List.mem_cons_self e es)
    cases hc : chunks.get? e.index with
    | none =>
      exact absurd (List.get?_eq_none.mp hc) (by omega)
    | some c =>
      have ih2 := ih (fun e2 he2 => h e2 (List.mem_cons_of_mem e he2))
      have hc2 : chunks[e.index]? = some c := by simpa using hc
      simp [mapRerank, hc2, ih2, List.filterMap_cons]

/-- C8: with a reranker configured, `retrieve` consults the search
backend only with pool size `max(topK*4, 20)` (conjunct 1; without a
reranker, only with `topK` — conjunct 2), and on a non-empty pool the
returned documents are exactly the reranker's ordered `{index, score}`
results mapped back to chunks and filtered by `scoreThreshold`, with no
re-sorting and no `topK` slice (conjunct 3). -/
theorem ragx_C8_retriever_rerank {V : Type} (strategy : RetrievalStrategy)
    (embed : String → Option V)
    (search search' : Option V → Nat → Option String → List SearchResult)
    (rr : String → List DocumentChunk → Nat → List RerankEntry)
    (store : Option (String → Option Document)) (query : String) (topK : Nat)
    (thr : ℚ) :
    ((∀ v q, search v (max (topK * 4) 20) q = search' v (max (topK * 4) 20) q) →
      Retriever.retrieve strategy embed search (some rr) store query topK thr =
        Retriever.retrieve strategy embed search' (some rr) store query topK thr)
    ∧ ((∀ v q, search v topK q = search' v topK q) →
      Retriever.retrieve strategy embed search none store query topK thr =
        Retriever.retrieve strategy embed search' none store query topK thr)
    ∧ (¬(strategy = RetrievalStrategy.vector ∧
          (retrieveEmbedding strategy embed query).isNone) →
      ∀ results, results = search (retrieveEmbedding strategy embed query)
          (max (topK * 4) 20) (retrieveTextQuery strategy query) →
        results ≠ [] →
        (∀ e ∈ rr query (results.map (fun r => r.chunk)) topK,
          e.index < results.length) →
        Retriever.retrieve strategy embed search (some rr) store query topK thr =
          .ok (((rr query (results.map (fun r => r.chunk)) topK).filterMap
            (fun e => ((results.map (fun r => r.chunk)).get? e.index).map
              (fun c => (⟨c, e.score, jsSourceLabel c⟩ : RetrievedDocument)))).filter
            (fun r => thr ≤ r.score))) := by
  refine ⟨fun h => ?_, fun h => ?_, fun hg results hres hne hidx => ?_⟩
  · unfold Retriever.retrieve
    by_cases hguard : strategy = RetrievalStrategy.vector ∧
        (retrieveEmbedding strategy embed query).isNone
    · rw [if_pos hguard, if_pos hguard]
    · simp only [if_neg hguard, Option.isSome_some, if_true]
      rw [h]
  · unfold Retriever.retrieve
    by_cases hguard : strategy = RetrievalStrategy.vector ∧
        (retrieveEmbedding strategy embed query).isNone
    · rw [if_pos hguard, if_pos hguard]
    · simp only [if_neg hguard, Option.isSome_none, Bool.false_eq_true,
        if_false]
      rw [h]
  · unfold Retriever.retrieve
    rw [if_neg hg]
    simp only [Option.isSome_some, if_true]
    rw [← hres]
    have hlen : results.length ≠ 0 := fun h0 => hne (List.length_eq_zero.mp h0)
    rw [if_pos hlen]
    rw [mapRerank_eq_filterMap (results.map (fun r => r.chunk))
      (rr query (results.map (fun r => r.chunk)) topK)
      (by simpa using hidx)]

/-- Candidate chunk fixtures for the reranking witness. -/
def fixtureChunkA : DocumentChunk := ⟨"c1", "x", "d1", 0, 1, "h", none, none, none⟩

/-- Second candidate chunk, carrying a metadata source label. -/
def fixtureChunkB : DocumentChunk :=
  ⟨"c2", "y", "d1", 1, 1, "h", some "lbl", none, none⟩

/-- A search backend returning two candidates only when asked for the
over-fetched pool size 20. -/
def fixtureSearch : Option Unit → Nat → Option String → List SearchResult :=
  fun _ k _ => if k = 20 then [⟨fixtureChunkA, 1⟩, ⟨fixtureChunkB, 2⟩] else []

/-- A reranker that inverts the backend order. -/
def fixtureRerank : String → List DocumentChunk → Nat → List RerankEntry :=
  fun _ _ _ => [⟨1, 5⟩, ⟨0, 3⟩]

/-- Witness for C8: with `topK = 5` the reranked pool (pool size
`max(20, 20) = 20`) comes back in reranker order, unsorted and
unsliced, both entries above the threshold 2. -/
theorem ragx_C8_retriever_rerank_witness :
    Retriever.retrieve RetrievalStrategy.vector (fun _ => some ())
      fixtureSearch (some fixtureRerank) none "q" 5 2 =
      .ok [⟨fixtureChunkB, 5, "lbl"⟩, ⟨fixtureChunkA, 3, "unknown"⟩] :=
  ((ragx_C8_retriever_rerank RetrievalStrategy.vector (fun _ => some ())
    fixtureSearch fixtureSearch fixtureRerank none "q" 5 2).2.2
    (by decide)
    (fixtureSearch (some ()) (max (5 * 4) 20) none) rfl
    (by decide) (by decide)).trans rfl

/-! ### `compressor.ts` — `EmbeddingsCompressor` (claim C10)

Embedding vectors are an abstract type `V` and the float cosine
similarity is an oracle `sim` (its arithmetic is external to the
claims).  The embedding capability is the oracle
`embed : List String → List (Option V)`, `none` modelling a missing
(`undefined`) vector.  JavaScript's stable sorts are modelled with
`List.insertionSort`.
-/

/-- A sentence-boundary character of the split regex `[.!?]+\s+`. -/
def isSentencePunct (c : Char) : Bool := c = '.' || c = '!' || c = '?'

/-- `content.split(/[.!?]+\s+/)` as a character state machine: `cur` is
the reversed current field, `pend` a reversed pending punctuation run,
and `skip` is true while consuming the separator's whitespace run.  A
punctuation run followed by whitespace is a separator (greedily eating
the whitespace run); a run not followed by whitespace stays in the
field. -/
def sentenceSplitAux : List Char → List Char → List Char → Bool →
    List (List Char)
  | [], cur, pend, _ => [(pend ++ cur).reverse]
  | c :: rest, cur, pend, skip =>
    if skip then
      if c.isWhitespace then sentenceSplitAux rest cur pend true
      else if isSentencePunct c then sentenceSplitAux rest [] [c] false
      else sentenceSplitAux rest [c] [] false
    else if isSentencePunct c then sentenceSplitAux rest cur (c :: pend) false
    else if c.isWhitespace && !pend.isEmpty then
      cur.reverse :: sentenceSplitAux rest [] [] true
    else sentenceSplitAux rest (c :: (pend ++ cur)) [] false

/-- The sentence list of `EmbeddingsCompressor.compress`:
`split(/[.!?]+\s+/).map(s => s.trim()).filter(s => s.length > 0)`. -/
def compressSentences (content : String) : List String :=
  ((sentenceSplitAux content.data [] [] false).map
    (fun f => String.mk (jsTrim f))).filter (fun s => s ≠ "")

/-- One scored sentence of the compressor. -/
structure ScoredSentence where
  sentence : String
  similarity : ℚ
  tokens : Nat
deriving DecidableEq, Repr

/-- Descending order on sentence similarity (comparator
`(a, b) => b.similarity - a.similarity`). -/
def simDesc (a b : ScoredSentence) : Prop := b.similarity ≤ a.similarity

instance : DecidableRel simDesc :=
  fun a b => inferInstanceAs (Decidable (b.similarity ≤ a.similarity))

/-- Ascending order on first occurrence in the sentence list
(comparator `sentences.indexOf(a.sentence) - sentences.indexOf(b.sentence)`,
where `indexOf` is -1 for an absent element — absent elements sort
first, as in JavaScript). -/
def originalOrder (sentences : List String) (a b : ScoredSentence) : Prop :=
  (if a.sentence ∈ sentences then (sentences.indexOf a.sentence : Int) else -1)
    ≤ (if b.sentence ∈ sentences then (sentences.indexOf b.sentence : Int) else -1)

instance (sentences : List String) : DecidableRel (originalOrder sentences) :=
  fun _ _ => inferInstanceAs (Decidable (_ ≤ _))

/-- The greedy budget selection: walk the similarity-ranked list and
admit every sentence that still fits (the loop has no break, so later
smaller sentences can still be admitted). -/
def selectSentences (maxTokens : Nat) (ranked : List ScoredSentence) :
    List ScoredSentence :=
  (ranked.foldl
    (fun st item =>
      if st.2 + item.tokens ≤ maxTokens then (st.1 ++ [item], st.2 + item.tokens)
      else st)
    (([] : List ScoredSentence), (0 : Nat))).1

/-- Per-document compression of `EmbeddingsCompressor.compress` (the
body of the `for (const doc of documents)` loop, given a present query
embedding). -/
def compressDoc {V : Type} (sim : V → V → ℚ)
    (embed : List String → List (Option V)) (qEmb : V) (maxTokens : Nat)
    (doc : RetrievedDocument) : RetrievedDocument :=
  let sentences := compressSentences doc.chunk.content
  if sentences.length ≤ 1 then doc
  else
    let sentenceEmbeddings := embed sentences
    let scored := (List.range sentences.length).map (fun i =>
      let s := (sentences.get? i).getD ""
      match (sentenceEmbeddings.get? i).join with
      | none => (⟨s, 0, countTokens s.data⟩ : ScoredSentence)
      | some e => ⟨s, sim qEmb e, countTokens s.data⟩)
    let ranked := List.insertionSort simDesc scored
    let selected := selectSentences maxTokens ranked
    let final := (List.insertionSort (originalOrder sentences) selected).map
      (fun s => s.sentence)
    let distilled := String.mk (jsJoin ". ".data (final.map (fun s => s.data))) ++ "."
    let newChunk := { doc.chunk with
      content := distilled
      tokenCount := countTokens distilled.data }
    ⟨newChunk, doc.score, doc.source⟩

/-- `EmbeddingsCompressor.compress`: `maxTokensPerDoc || 250`, then the
missing-query-embedding guard, then per-document compression. -/
def EmbeddingsCompressor.compress {V : Type} (sim : V → V → ℚ)
    (embed : List String → List (Option V)) (maxTokensPerDoc : Option Nat)
    (query : String) (documents : List RetrievedDocument) :
    List RetrievedDocument :=
  let maxTokens := match maxTokensPerDoc with
    | none => 250
    | some n => if n = 0 then 250 else n
  match ((embed [query]).head?).join with
  | none => documents
  | some qEmb => documents.map (compressDoc sim embed qEmb maxTokens)

/-- C10: when the embedding capability returns no vector for the query
(`embed([query])[0]` is `undefined`), `EmbeddingsCompressor.compress`
returns the input document list unchanged — same documents, same
order, no error (conjunct 1) — even though `Retriever.retrieve` in
vector mode treats the same condition as fatal (conjunct 2). -/
theorem ragx_C10_compress_missing_embedding {V : Type} (sim : V → V → ℚ)
    (embed : List String → List (Option V)) (maxTokensPerDoc : Option Nat)
    (query : String) (documents : List RetrievedDocument)
    (search : Option V → Nat → Option String → List SearchResult)
    (store : Option (String → Option Document)) (topK : Nat) (thr : ℚ)
    (h : ((embed [query]).head?).join = none) :
    EmbeddingsCompressor.compress sim embed maxTokensPerDoc query documents
      = documents
    ∧ ((embed [query]).head?.join = (none : Option V) →
      Retriever.retrieve RetrievalStrategy.vector
          (fun q => ((embed [q]).head?).join) search none store query topK thr
        = .error "Failed to generate query embedding for vector search") := by
  constructor
  · unfold EmbeddingsCompressor.compress
    rw [h]
  · intro h2
    have h3 : retrieveEmbedding RetrievalStrategy.vector
        (fun q => ((embed [q]).head?).join) query = none := h2
    simp [Retriever.retrieve, h3]
    exact h3

/-- An embedding capability that returns no vector for any input. -/
def noEmbed : List String → List (Option Unit) :=
  fun texts => texts.map (fun _ => none)

/-- Witness for C10: an embedding capability that returns no vectors at
all leaves a two-document list untouched, while vector retrieval with
it throws. -/
theorem ragx_C10_compress_missing_embedding_witness :
    EmbeddingsCompressor.compress (fun (_ _ : Unit) => (0 : ℚ)) noEmbed none
      "q" verifyScriptDocs = verifyScriptDocs
    ∧ Retriever.retrieve RetrievalStrategy.vector
        (fun q => ((noEmbed [q]).head?).join)
        (fun _ _ _ => []) none none "q" 5 0 =
      .error "Failed to generate query embedding for vector search" :=
  ⟨(ragx_C10_compress_missing_embedding (fun (_ _ : Unit) => (0 : ℚ))
      noEmbed none "q" verifyScriptDocs (fun _ _ _ => []) none 5 0 rfl).1,
   (ragx_C10_compress_missing_embedding (fun (_ _ : Unit) => (0 : ℚ))
      noEmbed none "q" verifyScriptDocs (fun _ _ _ => []) none 5 0 rfl).2 rfl⟩

/-! ### `rag-engine.ts` (claims C3, C6, C7)

The engine's capabilities are bundled as oracles.  `Promise.all` over
the retrieval fan-out resolves in issue order, so the per-query result
lists are merged in the order the queries were issued; a tool
execution rejection aborts the whole query (`LoopOut.failed`).
-/

/-- `ToolCall` of `interfaces.ts`. -/
structure ToolCall where
  id : String
  name : String
  arguments : String
deriving DecidableEq, Repr

/-- `LLMResponse` of `interfaces.ts`, reduced to the fields the loop
reads (`usage` is threaded through unchanged and read by no claim). -/
structure LLMResponse where
  content : String
  toolCalls : Option (List ToolCall)
deriving DecidableEq, Repr

/-- Chat roles. -/
inductive ChatRole where
  | system
  | user
  | assistant
  | tool
deriving DecidableEq, Repr

/-- `ChatMessage` of `interfaces.ts` (without the timestamp). -/
structure ChatMessage where
  role : ChatRole
  content : String
  toolCalls : Option (List ToolCall)
  toolCallId : Option String
deriving DecidableEq, Repr

/-- The loop guard `!lastResponse.toolCalls ||
lastResponse.toolCalls.length === 0`, negated. -/
def hasToolCalls (r : LLMResponse) : Bool :=
  match r.toolCalls with
  | some (_ :: _) => true
  | _ => false

/-- Execute all requested tools (`Promise.all`): one tool message per
call in request order; the first rejection rejects the join. -/
def execToolCalls (execTool : ToolCall → Except String String) :
    List ToolCall → Except String (List ChatMessage)
  | [] => .ok []
  | c :: cs =>
    match execTool c with
    | .error e => .error e
    | .ok s =>
      (execToolCalls execTool cs).map
        (fun rest => (⟨.tool, s, none, some c.id⟩ : ChatMessage) :: rest)

/-- Outcome of the generation loop: every response obtained (in call
order; the last one is `lastResponse`), the final message list, and
the rejection that aborted the loop, if any. -/
structure LoopOut where
  responses : List LLMResponse
  messages : List ChatMessage
  failed : Option String
deriving Repr

/-- The `while (iteration < maxIterations)` tool loop; the fuel is the
remaining iteration budget and is consumed only when the response
carries tool calls, exactly as `iteration++` is only reached then. -/
def genLoopAux (generate : List ChatMessage → LLMResponse)
    (execTool : ToolCall → Except String String) :
    Nat → List ChatMessage → List LLMResponse → LoopOut
  | 0, msgs, resps => ⟨resps, msgs, none⟩
  | n + 1, msgs, resps =>
    let r := generate msgs
    match r.toolCalls with
    | none => ⟨resps ++ [r], msgs, none⟩
    | some [] => ⟨resps ++ [r], msgs, none⟩
    | some (c :: cs) =>
      match execToolCalls execTool (c :: cs) with
      | .error e => ⟨resps ++ [r], msgs, some e⟩
      | .ok toolMsgs =>
        genLoopAux generate execTool n
          (msgs ++ [⟨.assistant, r.content, some (c :: cs), none⟩] ++ toolMsgs)
          (resps ++ [r])

/-- `maxIterations = 5`. -/
def maxToolIterations : Nat := 5

/-- The generation loop of `RAGEngine.query` / `queryStream`. -/
def genLoop (generate : List ChatMessage → LLMResponse)
    (execTool : ToolCall → Except String String) (msgs : List ChatMessage) :
    LoopOut :=
  genLoopAux generate execTool maxToolIterations msgs []

/-- The loop makes at most `n` more generation calls than the
responses already accumulated. -/
theorem genLoopAux_length_le (generate : List ChatMessage → LLMResponse)
    (execTool : ToolCall → Except String String) (n : Nat) :
    ∀ msgs resps, (genLoopAux generate execTool n msgs resps).responses.length
      ≤ resps.length + n := by
  induction n with
  | zero => intro msgs resps; simp [genLoopAux]
  | succ m ih =>
    intro msgs resps
    rw [genLoopAux]
    split
    · simp
    · simp
    · split
      · simp
      · calc (genLoopAux generate execTool m _ _).responses.length
            ≤ (resps ++ [generate msgs]).length + m := ih _ _
          _ ≤ resps.length + (m + 1) := by simp; omega

/-- Every response the loop obtained before the final one carried tool
calls (the loop stops at the first tool-free response), provided the
already-accumulated responses did. -/
theorem genLoopAux_dropLast_tools (generate : List ChatMessage → LLMResponse)
    (execTool : ToolCall → Except String String) (n : Nat) :
    ∀ msgs resps, (∀ r ∈ resps, hasToolCalls r = true) →
      ((genLoopAux generate execTool n msgs resps).responses.dropLast).all
        hasToolCalls = true := by
  induction n with
  | zero =>
    intro msgs resps hacc
    simp only [genLoopAux, List.all_eq_true]
    exact fun r hr => hacc r (List.dropLast_sublist resps |>.mem hr)
  | succ m ih =>
    intro msgs resps hacc
    rw [genLoopAux]
    split
    · simp only [List.dropLast_concat, List.all_eq_true]
      exact hacc
    · simp only [List.dropLast_concat, List.all_eq_true]
      exact hacc
    · next c cs h =>
      split
      · simp only [List.dropLast_concat, List.all_eq_true]
        exact hacc
      · apply ih
        intro r hr
        rcases List.mem_append.mp hr with hr | hr
        · exact hacc r hr
        · rw [List.mem_singleton.mp hr]
          simp [hasToolCalls, h]

/-- When every tool call succeeds, the loop never fails early. -/
theorem execToolCalls_ok (execTool : ToolCall → Except String String)
    (hex : ∀ c, ∃ s, execTool c = .ok s) :
    ∀ calls, ∃ msgs2, execToolCalls execTool calls = .ok msgs2 := by
  intro calls
  induction calls with
  | nil => exact ⟨[], rfl⟩
  | cons c cs ih =>
    obtain ⟨s, hs⟩ := hex c
    obtain ⟨m2, hm2⟩ := ih
    refine ⟨(⟨ChatRole.tool, s, none, some c.id⟩ : ChatMessage) :: m2, ?_⟩
    simp [execToolCalls, hs, hm2, Except.map]

/-- Under a generation capability that always requests tools and tools
that always succeed, the loop consumes its whole budget, one response
per unit of fuel, and its last response still carries tool calls. -/
theorem genLoopAux_always_tools (generate : List ChatMessage → LLMResponse)
    (execTool : ToolCall → Except String String)
    (hgen : ∀ ms, hasToolCalls (generate ms) = true)
    (hex : ∀ c, ∃ s, execTool c = .ok s) (n : Nat) :
    ∀ msgs resps,
      (genLoopAux generate execTool n msgs resps).responses.length
        = resps.length + n
      ∧ ((resps.getLast?).all hasToolCalls = true →
        ((genLoopAux generate execTool n msgs resps).responses.getLast?).all
          hasToolCalls = true) := by
  induction n with
  | zero =>
    intro msgs resps
    exact ⟨by simp [genLoopAux], fun h => by simpa [genLoopAux] using h⟩
  | succ m ih =>
    intro msgs resps
    have htools := hgen msgs
    rw [genLoopAux]
    split
    · next h =>
      simp [hasToolCalls, h] at htools
    · next h =>
      simp [hasToolCalls, h] at htools
    · next c cs h =>
      split
      · next e he =>
        obtain ⟨toolMsgs, he2⟩ := execToolCalls_ok execTool hex (c :: cs)
        rw [he2] at he
        cases he
      · next toolMsgs he =>
        refine ⟨?_, fun _ => ?_⟩
        · rw [(ih _ (resps ++ [generate msgs])).1]
          simp
          omega
        · apply (ih _ (resps ++ [generate msgs])).2
          simp [hasToolCalls, h]

/-- C6: the generation loop calls the capability at most 5 times; every
non-final response carried tool calls (it stops as soon as one does
not); and when the capability always requests tools and every tool
call succeeds, exactly 5 responses are obtained and the 5th — still
requesting tools — is the loop's final response. -/
theorem ragx_C6_tool_loop (generate : List ChatMessage → LLMResponse)
    (execTool : ToolCall → Except String String) (msgs : List ChatMessage) :
    (genLoop generate execTool msgs).responses.length ≤ 5
    ∧ ((genLoop generate execTool msgs).responses.dropLast).all hasToolCalls
      = true
    ∧ ((∀ ms, hasToolCalls (generate ms) = true) →
      (∀ c, ∃ s, execTool c = .ok s) →
      (genLoop generate execTool msgs).responses.length = 5
      ∧ ((genLoop generate execTool msgs).responses.getLast?).all hasToolCalls
        = true) := by
  refine ⟨?_, ?_, fun hgen hex => ?_⟩
  · simpa using genLoopAux_length_le generate execTool maxToolIterations msgs []
  · exact genLoopAux_dropLast_tools generate execTool maxToolIterations msgs []
      (by intro r hr; cases hr)
  · refine ⟨?_, ?_⟩
    · simpa using
        (genLoopAux_always_tools generate execTool hgen hex maxToolIterations
          msgs []).1
    · exact (genLoopAux_always_tools generate execTool hgen hex
        maxToolIterations msgs []).2 rfl

/-- A generation capability that always requests the same tool. -/
def alwaysToolGen : List ChatMessage → LLMResponse :=
  fun _ => ⟨"calling", some [⟨"1", "t", "{}"⟩]⟩

/-- Witness for C6: with a capability that always requests a tool and a
tool that always succeeds, the loop stops after exactly 5 calls and its
final response still requests tools. -/
theorem ragx_C6_tool_loop_witness :
    (genLoop alwaysToolGen (fun _ => .ok "r") []).responses.length = 5
    ∧ ((genLoop alwaysToolGen (fun _ => .ok "r") []).responses.getLast?).all
      hasToolCalls = true :=
  (ragx_C6_tool_loop alwaysToolGen (fun _ => .ok "r") []).2.2
    (fun _ => rfl) (fun _ => ⟨"r", rfl⟩)

/-- `Array.from(new Set(list))`: first occurrence of each element, in
insertion order. -/
def jsSetDedupAux (seen : List String) : List String → List String
  | [] => []
  | x :: xs =>
    if x ∈ seen then jsSetDedupAux seen xs
    else x :: jsSetDedupAux (x :: seen) xs

/-- `Array.from(new Set(list))`. -/
def jsSetDedup (l : List String) : List String := jsSetDedupAux [] l

/-- One step of the engine's merge: push the document unless its chunk
id was already seen. -/
def mergeStep (st : List RetrievedDocument × List String)
    (d : RetrievedDocument) : List RetrievedDocument × List String :=
  if d.chunk.id ∈ st.2 then st else (st.1 ++ [d], d.chunk.id :: st.2)

/-- The engine's merge of the per-query retrieval results, exactly as
coded: two nested `for` loops over a shared `seenIds` set, iterating
the result lists in the order the queries were issued. -/
def mergeDedup (results : List (List RetrievedDocument)) :
    List RetrievedDocument :=
  (results.foldl (fun st docList => docList.foldl mergeStep st) ([], [])).1

/-- Specification-shaped first-seen-wins deduplication of a single
list by chunk id. -/
def dedupFirstById : List RetrievedDocument → List String →
    List RetrievedDocument
  | [], _ => []
  | d :: ds, seen =>
    if d.chunk.id ∈ seen then dedupFirstById ds seen
    else d :: dedupFirstById ds (d.chunk.id :: seen)

/-- The seen-id set after a first-seen-wins pass. -/
def dedupSeen : List RetrievedDocument → List String → List String
  | [], seen => seen
  | d :: ds, seen =>
    if d.chunk.id ∈ seen then dedupSeen ds seen
    else dedupSeen ds (d.chunk.id :: seen)

/-- `allDocs.sort((a, b) => b.score - a.score).slice(0, topK * 2)`;
JavaScript's sort is stable, hence the stable `insertionSort`. -/
def fuseCap (topK : Nat) (docs : List RetrievedDocument) :
    List RetrievedDocument :=
  (List.insertionSort scoreDesc docs).take (topK * 2)

/-- The inner `for` loop of the merge equals the specification-shaped
single-list pass, for any accumulator. -/
theorem foldl_mergeStep_eq (l : List RetrievedDocument) :
    ∀ acc seen, l.foldl mergeStep (acc, seen)
      = (acc ++ dedupFirstById l seen, dedupSeen l seen) := by
  induction l with
  | nil => intro acc seen; simp [dedupFirstById, dedupSeen]
  | cons d ds ih =>
    intro acc seen
    by_cases h : d.chunk.id ∈ seen
    · simp only [List.foldl_cons, mergeStep, h, if_pos, dedupFirstById,
        dedupSeen, ih]
    · simp only [List.foldl_cons, mergeStep, h, if_neg, dedupFirstById,
        dedupSeen, ih, if_false, List.append_assoc, List.singleton_append]

/-- First-seen-wins passes compose over list concatenation. -/
theorem dedupFirstById_append (l1 l2 : List RetrievedDocument) :
    ∀ seen, dedupFirstById (l1 ++ l2) seen
      = dedupFirstById l1 seen ++ dedupFirstById l2 (dedupSeen l1 seen) := by
  induction l1 with
  | nil => intro seen; simp [dedupFirstById, dedupSeen]
  | cons d ds ih =>
    intro seen
    by_cases h : d.chunk.id ∈ seen
    · simp [dedupFirstById, dedupSeen, h, ih]
    · simp [dedupFirstById, dedupSeen, h, ih]

/-- Seen-id accumulation composes over list concatenation. -/
theorem dedupSeen_append (l1 l2 : List RetrievedDocument) :
    ∀ seen, dedupSeen (l1 ++ l2) seen = dedupSeen l2 (dedupSeen l1 seen) := by
  induction l1 with
  | nil => intro seen; simp [dedupSeen]
  | cons d ds ih =>
    intro seen
    by_cases h : d.chunk.id ∈ seen
    · simp [dedupSeen, h, ih]
    · simp [dedupSeen, h, ih]

/-- The engine's nested merge loops equal the specification-shaped
first-seen-wins pass over the concatenation of the per-query result
lists, in issue order. -/
theorem mergeDedup_eq_dedupFirst (results : List (List RetrievedDocument)) :
    mergeDedup results = dedupFirstById results.flatten [] := by
  suffices h : ∀ acc seen,
      results.foldl (fun st docList => docList.foldl mergeStep st) (acc, seen)
        = (acc ++ dedupFirstById results.flatten seen,
           dedupSeen results.flatten seen) by
    unfold mergeDedup
    rw [h [] []]
    simp
  induction results with
  | nil => intro acc seen; simp [dedupFirstById, dedupSeen]
  | cons dl rest ih =>
    intro acc seen
    simp only [List.foldl_cons, List.flatten_cons, foldl_mergeStep_eq, ih,
      dedupFirstById_append, dedupSeen_append, List.append_assoc]

/-- A first-seen-wins pass emits no chunk id twice nor any id already
seen. -/
theorem dedupFirstById_nodup (l : List RetrievedDocument) :
    ∀ seen, ((dedupFirstById l seen).map (fun d => d.chunk.id)).Nodup
      ∧ ∀ d ∈ dedupFirstById l seen, d.chunk.id ∉ seen := by
  induction l with
  | nil => intro seen; simp [dedupFirstById]
  | cons d ds ih =>
    intro seen
    by_cases h : d.chunk.id ∈ seen
    · simpa [dedupFirstById, h] using ih seen
    · have ih2 := ih (d.chunk.id :: seen)
      constructor
      · simp only [dedupFirstById, h, if_false, List.map_cons, List.nodup_cons]
        refine ⟨?_, ih2.1⟩
        intro hmem
        obtain ⟨d2, hd2, hid⟩ := List.mem_map.mp hmem
        exact ih2.2 d2 hd2 (hid ▸ List.mem_cons_self _ _)
      · intro d2 hd2
        rw [dedupFirstById, if_neg h] at hd2
        rcases List.mem_cons.mp hd2 with h2 | h2
        · rw [h2]; exact h
        · exact fun hseen =>
            ih2.2 d2 h2 (List.mem_cons_of_mem _ hseen)

/-- C7: the merged pool deduplicates by chunk id, keeping the
first-seen entry while iterating the per-query result lists in query
issue order (conjunct 1: the engine's nested merge loops equal a
first-seen-wins pass over the issue-order concatenation); the final
pool contains no two entries with the same chunk id (conjunct 2), is
sorted by score descending (conjunct 3), and holds at most `2*topK`
entries (conjunct 4). -/
theorem ragx_C7_merge_dedup_fuse (results : List (List RetrievedDocument))
    (topK : Nat) :
    mergeDedup results = dedupFirstById results.flatten []
    ∧ ((fuseCap topK (mergeDedup results)).map (fun d => d.chunk.id)).Nodup
    ∧ List.Sorted scoreDesc (fuseCap topK (mergeDedup results))
    ∧ (fuseCap topK (mergeDedup results)).length ≤ 2 * topK := by
  have h1 : ((mergeDedup results).map (fun d => d.chunk.id)).Nodup := by
    rw [mergeDedup_eq_dedupFirst]
    exact (dedupFirstById_nodup results.flatten []).1
  refine ⟨mergeDedup_eq_dedupFirst results, ?_, ?_, ?_⟩
  · have hperm : List.Perm
        (List.insertionSort scoreDesc (mergeDedup results))
        (mergeDedup results) := List.perm_insertionSort _ _
    have h2 : ((List.insertionSort scoreDesc (mergeDedup results)).map
        (fun d => d.chunk.id)).Nodup := ((hperm.map _).nodup_iff).mpr h1
    exact h2.sublist ((List.take_sublist _ _).map _)
  · exact List.Pairwise.sublist (List.take_sublist _ _)
      (List.sorted_insertionSort scoreDesc (mergeDedup results))
  · calc (fuseCap topK (mergeDedup results)).length ≤ topK * 2 :=
        List.length_take_le _ _
      _ = 2 * topK := Nat.mul_comm _ _

/-- The engine configuration switches the claims depend on. -/
structure EngineConfig where
  rewrite : Bool
  expand : Bool
  decompose : Bool
  hyde : Bool
  maxExpansions : Option Nat
  compression : Bool
deriving DecidableEq, Repr

/-- The engine's collaborator capabilities as oracles.  `retrieveFn`
stands for `retriever.retrieve(query, topK, scoreThreshold)` (its
fatal errors are outside the claims below); `execTool` is the registry
boundary, whose `.error` rejects the whole query; `generateStream`
returns the fragment list of one streaming generation. -/
structure EngineDeps where
  rewriteFn : String → String
  expandFn : String → Option Nat → List String
  decomposeFn : String → List String
  hydeFn : String → String
  retrieveFn : String → Nat → ℚ → List RetrievedDocument
  compressFn : String → List RetrievedDocument → List RetrievedDocument
  generate : List ChatMessage → LLMResponse
  generateStream : List ChatMessage → List String
  execTool : ToolCall → Except String String

/-- `searchQueries[0] || query` (JavaScript falsiness on the empty
string). -/
def jsHeadOr (l : List String) (d : String) : String :=
  match l.head? with
  | none => d
  | some s => if s = "" then d else s

/-- Step 1 of `RAGEngine.query`: rewrite replaces the seed, expansion
and decomposition union their outputs in first-seen order
(`Array.from(new Set([...a, ...b]))`). -/
def searchQueriesOf (cfg : EngineConfig) (d : EngineDeps) (query : String) :
    List String :=
  let q1 := if cfg.rewrite then [d.rewriteFn query] else [query]
  let q2 := if cfg.expand then
      jsSetDedup (q1 ++ d.expandFn (jsHeadOr q1 query) cfg.maxExpansions)
    else q1
  if cfg.decompose then
    jsSetDedup (q2 ++ d.decomposeFn (jsHeadOr q2 query))
  else q2

/-- Steps 2–2.1 of `RAGEngine.query`: per-query retrieval fan-out
(optionally through HyDE), merge in issue order, sort and cap to
`topK*2`, then optional compression. -/
def enginePool (cfg : EngineConfig) (d : EngineDeps) (query : String)
    (topK : Nat) (scoreThreshold : ℚ) : List RetrievedDocument :=
  let queries := searchQueriesOf cfg d query
  let results := queries.map
    (fun q => d.retrieveFn (if cfg.hyde then d.hydeFn q else q) topK
      scoreThreshold)
  let capped := fuseCap topK (mergeDedup results)
  if cfg.compression then d.compressFn query capped else capped

/-- One `{content, source, score}` entry of `RAGResponse.sources`. -/
structure SourceEntry where
  content : String
  source : String
  score : ℚ
deriving DecidableEq, Repr

/-- `RAGResponse` (without the optional usage/cost pass-throughs no
claim reads). -/
structure RAGResponse where
  answer : String
  sources : List SourceEntry
  contextSufficient : Bool
deriving DecidableEq, Repr

/-- `retrievedDocs.map(doc => ({content, source, score}))`. -/
def sourcesOf (docs : List RetrievedDocument) : List SourceEntry :=
  docs.map (fun doc => ⟨doc.chunk.content, doc.source, doc.score⟩)

/-- Modelled from the spec: `ContextBuilder.buildMessages` is declared
in `IContextBuilder` and called by the engine, but no implementation
exists in the source tree.  Per §4.4 it renders the same content as
`formatPrompt` as role-tagged messages: the system prompt, the
admitted documents, the history, then the user query.  Only its place
as the loop's initial message list matters to the claims below. -/
def ContextBuilder.buildMessages (ctx : RAGContext) : List ChatMessage :=
  (⟨.system, ctx.systemPrompt, none, none⟩ : ChatMessage) ::
    ctx.documents.map
      (fun docR => (⟨.system, docR.chunk.content, none, none⟩ : ChatMessage))
    ++ (match ctx.history with
        | none => []
        | some hist => hist.map (fun m =>
            (⟨if m.isUser then .user else .assistant, m.content, none, none⟩ :
              ChatMessage)))
    ++ [(⟨.user, ctx.query, none, none⟩ : ChatMessage)]

/-- Outcome of `RAGEngine.query`: the response (or propagated fatal
error) and the number of generation-stage LLM calls made. -/
structure QueryOutcome where
  response : Except String RAGResponse
  genCalls : Nat
deriving Repr

/-- Outcome of `RAGEngine.queryStream`: the chunks yielded to the
caller, the completion value, and the number of generation-stage LLM
calls (loop calls plus the final streaming call). -/
structure StreamOutcome where
  yielded : List String
  response : Except String RAGResponse
  genCalls : Nat
deriving Repr

/-- `RAGEngine.query`.  The engine passes `maxContextTokens = 4000` and
the session history into `build`'s third and fourth slots; the
implemented `build` binds the number to its `history` parameter and
drops the real history (claim C1), so the context carries no usable
history — `verifyGrounding` reads only the documents. -/
def RAGEngine.query (cfg : EngineConfig) (d : EngineDeps) (query : String)
    (topK : Nat) (scoreThreshold : ℚ) : QueryOutcome :=
  let pool := enginePool cfg d query topK scoreThreshold
  if pool.isEmpty then
    ⟨.ok ⟨"INSUFFICIENT_CONTEXT", [], false⟩, 0⟩
  else
    let ctx := ContextBuilder.build none query pool none
    let out := genLoop d.generate d.execTool (ContextBuilder.buildMessages ctx)
    match out.failed with
    | some e => ⟨.error e, out.responses.length⟩
    | none =>
      match out.responses.getLast? with
      | none => ⟨.error "Failed to generate response from LLM",
          out.responses.length⟩
      | some last =>
        if ContextBuilder.verifyGrounding last.content ctx = false
            ∧ last.content ≠ "INSUFFICIENT_CONTEXT" then
          ⟨.ok ⟨"INSUFFICIENT_CONTEXT", sourcesOf pool, false⟩,
            out.responses.length⟩
        else
          ⟨.ok ⟨last.content, sourcesOf pool, true⟩, out.responses.length⟩

/-- `RAGEngine.queryStream`: same pipeline, but after the tool loop the
final answer comes from one streaming generation whose fragments are
forwarded as they arrive; grounding feeds `contextSufficient` without
rewriting already-streamed text. -/
def RAGEngine.queryStream (cfg : EngineConfig) (d : EngineDeps)
    (query : String) (topK : Nat) (scoreThreshold : ℚ) : StreamOutcome :=
  let pool := enginePool cfg d query topK scoreThreshold
  if pool.isEmpty then
    ⟨["INSUFFICIENT_CONTEXT"], .ok ⟨"INSUFFICIENT_CONTEXT", [], false⟩, 0⟩
  else
    let ctx := ContextBuilder.build none query pool none
    let out := genLoop d.generate d.execTool (ContextBuilder.buildMessages ctx)
    match out.failed with
    | some e => ⟨[], .error e, out.responses.length⟩
    | none =>
      match out.responses.getLast? with
      | none => ⟨[], .error "Failed to generate response from LLM",
          out.responses.length⟩
      | some _ =>
        let chunks := d.generateStream out.messages
        let full := String.mk (jsJoin [] (chunks.map (fun s => s.data)))
        ⟨chunks,
          .ok ⟨full, sourcesOf pool,
            ContextBuilder.verifyGrounding full ctx⟩,
          out.responses.length + 1⟩

/-- C3: whenever the retrieved-and-compressed pool is empty, `query`
returns the terminal response — answer exactly `INSUFFICIENT_CONTEXT`,
empty sources, `contextSufficient = false` — with zero
generation-stage LLM calls, and `queryStream` yields the sentinel once
as its only chunk and completes with the same response, also with zero
generation calls. -/
theorem ragx_C3_empty_pool_terminal (cfg : EngineConfig) (d : EngineDeps)
    (query : String) (topK : Nat) (thr : ℚ)
    (h : enginePool cfg d query topK thr = []) :
    RAGEngine.query cfg d query topK thr =
      ⟨.ok ⟨"INSUFFICIENT_CONTEXT", [], false⟩, 0⟩
    ∧ RAGEngine.queryStream cfg d query topK thr =
      ⟨["INSUFFICIENT_CONTEXT"], .ok ⟨"INSUFFICIENT_CONTEXT", [], false⟩,
        0⟩ := by
  constructor
  · unfold RAGEngine.query
    rw [h]
    rfl
  · unfold RAGEngine.queryStream
    rw [h]
    rfl

/-- A configuration with every transformation and compression off. -/
def offConfig : EngineConfig := ⟨false, false, false, false, none, false⟩

/-- Collaborators whose search backend returns zero matches. -/
def emptyBackendDeps : EngineDeps :=
  ⟨id, fun _ _ => [], fun _ => [], id, fun _ _ _ => [], fun _ ds => ds,
    fun _ => ⟨"", none⟩, fun _ => [], fun _ => .ok ""⟩

/-- Witness for C3: a backend returning zero matches produces the
terminal sentinel response on both paths. -/
theorem ragx_C3_empty_pool_terminal_witness :
    RAGEngine.query offConfig emptyBackendDeps "q" 5 0 =
      ⟨.ok ⟨"INSUFFICIENT_CONTEXT", [], false⟩, 0⟩
    ∧ RAGEngine.queryStream offConfig emptyBackendDeps "q" 5 0 =
      ⟨["INSUFFICIENT_CONTEXT"], .ok ⟨"INSUFFICIENT_CONTEXT", [], false⟩,
        0⟩ :=
  ragx_C3_empty_pool_terminal offConfig emptyBackendDeps "q" 5 0 rfl
